import Mathlib

/-!
Shallow embedding of `src/detect.py` (real-time sign-language detection).

The embedded pieces are:
* `preprocess_landmarks` — the landmark normalizer (lines 54-60); integer
  pixel coordinates and the normalized outputs are modelled as rationals,
  and the partial indexing `landmarks[0]` on an empty list is modelled by
  an `Option` result.
* `load_labels` — the label-vocabulary loader (lines 21-29); the parsed
  JSON value is modelled by the inductive `PyVal`, the labels file (when it
  exists and parses to an object) by an association list.
* `load_model` — the model-file resolution (lines 32-41), abstracted over
  the file-existence predicate, returning the loaded path or the fatal
  error message.
* `predict_label` — the classifier-index-to-label mapping (line 148).
* `frameStep` / `runFrames` — the per-frame debounce logic of the main
  loop (lines 138-149 and 180-185); a frame either carries an observation
  `some (label, confidence)` (a hand was detected) or `none`, and the code
  encodes the absent observation by the empty `predicted_label`.
-/

namespace Detect

/-- A parsed JSON value, as `json.load` can produce for the `classes`
field of the labels file. -/
inductive PyVal : Type
  | str (s : String)
  | int (n : Int)
  | list (l : List PyVal)
  | null

/-- The fallback vocabulary of `load_labels` (line 29):
`[str(i) for i in range(1, 10)] + list(string.ascii_uppercase)`. -/
def fallback_labels : List PyVal :=
  ((List.range 9).map (fun i => PyVal.str (toString (i + 1)))) ++
    ("ABCDEFGHIJKLMNOPQRSTUVWXYZ".toList.map (fun c => PyVal.str (String.mk [c])))

/-- `load_labels` (lines 21-29).  The argument is `none` when the labels
file does not exist, and `some data` when it exists and parses to the JSON
object `data`; `List.lookup` plays the role of `data.get("classes")`.
The code keeps any non-empty list found under `"classes"` and otherwise
falls back to the default vocabulary. -/
def load_labels (file : Option (List (String × PyVal))) : List PyVal :=
  match file with
  | Option.none => fallback_labels
  | some data =>
    match List.lookup "classes" data with
    | some (PyVal.list (c :: cs)) => c :: cs
    | _ => fallback_labels

/-- `load_model` (lines 32-41), abstracted over which paths exist on disk
(`os.path.exists`).  Returns the path that gets loaded, or the message of
the raised `FileNotFoundError`. -/
def load_model (exists_file : String → Bool) (model_path : String) :
    Except String String :=
  if exists_file model_path = false then
    if exists_file "model_v2.h5" = true then Except.ok "model_v2.h5"
    else Except.error
      ("Model not found: " ++ model_path ++ ". Train first or provide --model path.")
  else Except.ok model_path

/-- Substring test over character lists, used to formalize that an error
message "names" a path. -/
def strContains (s pat : String) : Bool :=
  (List.range (s.toList.length + 1)).any
    (fun i => pat.toList.isPrefixOf (s.toList.drop i))

/-- Line 148: `predicted_label = labels[idx] if idx < len(labels) else str(idx)`. -/
def predict_label (labels : List String) (idx : Nat) : String :=
  if h : idx < labels.length then labels.get ⟨idx, h⟩ else toString idx

/-- `preprocess_landmarks` (lines 54-60) over exact rational arithmetic.
`none` models the `IndexError` raised by `landmarks[0]` on an empty list;
otherwise the result is the flattened base-point-relative coordinate list,
divided by its maximum absolute component unless that maximum is zero. -/
def preprocess_landmarks (landmarks : List (ℚ × ℚ)) : Option (List ℚ) :=
  match landmarks with
  | [] => Option.none
  | (base_x, base_y) :: _ =>
    let relative_landmarks : List (ℚ × ℚ) :=
      landmarks.map (fun p => (p.1 - base_x, p.2 - base_y))
    let flattened : List ℚ := relative_landmarks.flatMap (fun p => [p.1, p.2])
    let abs_vals : List ℚ := flattened.map (fun v => |v|)
    let max_val : ℚ :=
      match abs_vals with
      | [] => 1
      | a :: rest => rest.foldl max a
    let normalized : List ℚ :=
      if max_val ≠ 0 then flattened.map (fun val => val / max_val) else flattened
    some normalized

/-- The tail of `preprocess_landmarks` once the base point has been
subtracted: flatten the relative coordinates, take the maximum absolute
component, and divide by it unless it is zero.  `preprocess_cons` below
shows that `preprocess_landmarks` computes exactly this on its
relative-coordinate list; the invariance proofs reason about this part in
isolation. -/
def normFromRel (relative_landmarks : List (ℚ × ℚ)) : List ℚ :=
  let flattened : List ℚ := relative_landmarks.flatMap (fun p => [p.1, p.2])
  let abs_vals : List ℚ := flattened.map (fun v => |v|)
  let max_val : ℚ :=
    match abs_vals with
    | [] => 1
    | a :: rest => rest.foldl max a
  if max_val ≠ 0 then flattened.map (fun val => val / max_val) else flattened

/-- The mutable pair of the main loop (lines 113-114):
`last_label = None`, `last_change_time = 0.0`. -/
structure StabState where
  last_label : Option String
  last_change_time : ℚ
  deriving DecidableEq, Repr

/-- The state at program start. -/
def stabInit : StabState := ⟨Option.none, 0⟩

/-- One pass through the debounce logic of the frame loop (lines 138-141
and 180-185).  `obs` is `some (label, confidence)` when a hand was
detected this frame, mirroring that the loop leaves `predicted_label = ""`
and `confidence = 0.0` when `result.multi_hand_landmarks` is empty.  The
returned `Bool` records whether `speak` was triggered (a commit). -/
def frameStep (no_audio : Bool) (conf : ℚ) (obs : Option (String × ℚ))
    (now : ℚ) (s : StabState) : StabState × Bool :=
  let predicted_label : String := match obs with | Option.none => "" | some o => o.1
  let confidence : ℚ := match obs with | Option.none => 0 | some o => o.2
  if no_audio = false ∧ predicted_label ≠ "" ∧ conf ≤ confidence then
    if some predicted_label ≠ s.last_label ∧ now - s.last_change_time > 3/4 then
      (⟨some predicted_label, now⟩, true)
    else (s, false)
  else (s, false)

/-- Iterate `frameStep` over a list of frames, each a pair of the optional
observation and the frame's `now` timestamp; collects the committed
`(label, time)` events in order. -/
def runFrames (no_audio : Bool) (conf : ℚ)
    (frames : List (Option (String × ℚ) × ℚ)) (s : StabState) :
    StabState × List (String × ℚ) :=
  match frames with
  | [] => (s, [])
  | (obs, now) :: rest =>
    let step := frameStep no_audio conf obs now s
    let tail := runFrames no_audio conf rest step.1
    let lbl : String := match obs with | Option.none => "" | some o => o.1
    (tail.1, if step.2 then (lbl, now) :: tail.2 else tail.2)

/-- Reduction of `frameStep` on a frame with audio enabled and an
observation present: the commit fires exactly when the gate of lines
181-182 passes. -/
theorem frameStep_obs_eq (conf : ℚ) (label : String) (c now : ℚ) (s : StabState) :
    frameStep false conf (some (label, c)) now s =
      if label ≠ "" ∧ conf ≤ c then
        if some label ≠ s.last_label ∧ now - s.last_change_time > 3/4 then
          (⟨some label, now⟩, true)
        else (s, false)
      else (s, false) := by
  by_cases h1 : label ≠ "" <;> by_cases h2 : conf ≤ c <;>
    simp [frameStep, h1, h2]

/-- Reduction of `frameStep` on a no-hand frame: `predicted_label` stays
`""`, so the gate of line 181 fails and the state is untouched. -/
theorem frameStep_none_eq (no_audio : Bool) (conf now : ℚ) (s : StabState) :
    frameStep no_audio conf Option.none now s = (s, false) := by
  simp [frameStep]

/-- C1: with audio enabled, an observation `(label, confidence, now)`
(a detected hand carries a non-empty label) commits — triggering speech
and updating the state to `(label, now)` — iff the confidence is at least
the threshold, the label differs from the last committed label, and
`now - last_commit_timestamp` exceeds the 0.75 s refractory interval; in
every other case, including no-hand frames, the state is unchanged. -/
theorem frameStep_commit_iff (no_audio : Bool) (conf : ℚ) (label : String)
    (c now : ℚ) (s : StabState) (hl : label ≠ "") :
    ((frameStep false conf (some (label, c)) now s).2 = true ↔
      (conf ≤ c ∧ some label ≠ s.last_label ∧ now - s.last_change_time > 3/4)) ∧
    ((conf ≤ c ∧ some label ≠ s.last_label ∧ now - s.last_change_time > 3/4) →
      frameStep false conf (some (label, c)) now s = (⟨some label, now⟩, true)) ∧
    (¬ (conf ≤ c ∧ some label ≠ s.last_label ∧ now - s.last_change_time > 3/4) →
      frameStep false conf (some (label, c)) now s = (s, false)) ∧
    frameStep no_audio conf Option.none now s = (s, false) := by
  rw [frameStep_obs_eq]
  by_cases h2 : conf ≤ c <;>
    by_cases h3 : some label ≠ s.last_label ∧ now - s.last_change_time > 3/4 <;>
      simp [hl, h2, h3, frameStep_none_eq]

/-- Witness for C1: a commit at `("A", 0.95)` with `now = 1`,
threshold 0.80, from the initial state. -/
theorem frameStep_commit_iff_witness :
    frameStep false (4/5) (some ("A", 19/20)) 1 stabInit =
      (⟨some "A", 1⟩, true) :=
  (frameStep_commit_iff false (4/5) "A" (19/20) 1 stabInit (by decide)).2.1
    ⟨by norm_num, by simp [stabInit], by norm_num [stabInit]⟩

/-- The concrete observation sequence of the spec's debounce scenario:
("A", 0.95, t=0.0), ("A", 0.95, t=0.1), ("B", 0.95, t=0.2),
("B", 0.95, t=0.9), ("B", 0.60, t=1.5). -/
def scenario_frames : List (Option (String × ℚ) × ℚ) :=
  [(some ("A", 19/20), 0), (some ("A", 19/20), 1/10), (some ("B", 19/20), 1/5),
    (some ("B", 19/20), 9/10), (some ("B", 3/5), 3/2)]

/-- C2 counterexample: the spec's scenario does not produce the two
commits `("A", t=0.0)` and `("B", t=0.9)`.  At t=0.0 the refractory check
`now - last_change_time > 0.75` is `0 > 0.75`, false against the initial
state `(None, 0.0)`, so the first observation never commits. -/
theorem scenario_commits_ne_claim :
    (runFrames false (4/5) scenario_frames stabInit).2 ≠ [("A", 0), ("B", 9/10)] := by
  norm_num [scenario_frames, runFrames, frameStep, stabInit]
  simp

/-- C2 (amended): the scenario produces exactly one commit, `("B", t=0.9)`
at the fourth observation; the first observation fails the refractory
check against the initial state `(None, 0.0)`, and the other three
observations also leave the state unchanged. -/
theorem scenario_commits :
    frameStep false (4/5) (some ("A", 19/20)) 0 stabInit = (stabInit, false) ∧
    frameStep false (4/5) (some ("A", 19/20)) (1/10) stabInit = (stabInit, false) ∧
    frameStep false (4/5) (some ("B", 19/20)) (1/5) stabInit = (stabInit, false) ∧
    frameStep false (4/5) (some ("B", 19/20)) (9/10) stabInit =
      (⟨some "B", 9/10⟩, true) ∧
    frameStep false (4/5) (some ("B", 3/5)) (3/2) ⟨some "B", 9/10⟩ =
      (⟨some "B", 9/10⟩, false) ∧
    runFrames false (4/5) scenario_frames stabInit =
      (⟨some "B", 9/10⟩, [("B", 9/10)]) := by
  refine ⟨?_, ?_, ?_, ?_, ?_, ?_⟩ <;>
    · norm_num [scenario_frames, runFrames, frameStep, stabInit]
      try simp

/-- C10: with `--no_audio` set, the gate of line 181 never passes, so no
commit ever fires and the stabilizer state never changes from any
starting state — in particular it stays at its initial value for the
whole run. -/
theorem no_audio_no_commit (conf : ℚ) (frames : List (Option (String × ℚ) × ℚ))
    (s : StabState) :
    runFrames true conf frames s = (s, []) := by
  induction frames generalizing s with
  | nil => rfl
  | cons f rest ih =>
    obtain ⟨obs, now⟩ := f
    simp [runFrames, frameStep, ih]

/-- C7 counterexample: a labels file whose `classes` field is a non-empty
list of non-strings is returned verbatim by `load_labels` (the code only
checks `isinstance(classes, list) and classes`), not replaced by the
35-element default vocabulary. -/
theorem load_labels_nonstring_counterexample :
    load_labels (some [("classes", PyVal.list [PyVal.int 7])]) = [PyVal.int 7] ∧
    [PyVal.int 7] ≠ fallback_labels :=
  ⟨rfl, fun h => absurd (congrArg List.length h) (by decide)⟩

/-- C7 (amended): `load_labels` returns the 35-element default vocabulary
`["1",…,"9","A",…,"Z"]` exactly when the labels source is missing or its
`classes` field is absent, not a list, or an empty list; any non-empty
`classes` list is returned verbatim, even when its entries are not
strings. -/
theorem load_labels_default_spec :
    (∀ file : Option (List (String × PyVal)),
      (∀ data, file = some data →
        ∀ c cs, List.lookup "classes" data ≠ some (PyVal.list (c :: cs))) →
      load_labels file = fallback_labels) ∧
    (∀ (data : List (String × PyVal)) (c : PyVal) (cs : List PyVal),
      List.lookup "classes" data = some (PyVal.list (c :: cs)) →
      load_labels (some data) = c :: cs) ∧
    fallback_labels =
      [PyVal.str "1", PyVal.str "2", PyVal.str "3", PyVal.str "4", PyVal.str "5",
        PyVal.str "6", PyVal.str "7", PyVal.str "8", PyVal.str "9",
        PyVal.str "A", PyVal.str "B", PyVal.str "C", PyVal.str "D", PyVal.str "E",
        PyVal.str "F", PyVal.str "G", PyVal.str "H", PyVal.str "I", PyVal.str "J",
        PyVal.str "K", PyVal.str "L", PyVal.str "M", PyVal.str "N", PyVal.str "O",
        PyVal.str "P", PyVal.str "Q", PyVal.str "R", PyVal.str "S", PyVal.str "T",
        PyVal.str "U", PyVal.str "V", PyVal.str "W", PyVal.str "X", PyVal.str "Y",
        PyVal.str "Z"] := by
  refine ⟨?_, ?_, rfl⟩
  · intro file h
    match file with
    | Option.none => rfl
    | some data =>
      cases hl : List.lookup "classes" data with
      | none => simp [load_labels, hl]
      | some v =>
        cases v with
        | str s => simp [load_labels, hl]
        | int n => simp [load_labels, hl]
        | null => simp [load_labels, hl]
        | list l =>
          cases l with
          | nil => simp [load_labels, hl]
          | cons c cs => exact absurd hl (h data rfl c cs)
  · intro data c cs h
    simp [load_labels, h]

/-- Witness for C7 (amended): a missing file falls back to the default
vocabulary, and a non-empty `classes` list is returned verbatim. -/
theorem load_labels_default_spec_witness :
    load_labels Option.none = fallback_labels ∧
    load_labels (some [("classes", PyVal.list [PyVal.str "X"])]) = [PyVal.str "X"] :=
  ⟨load_labels_default_spec.1 Option.none (fun _ h => nomatch h),
    load_labels_default_spec.2.1 [("classes", PyVal.list [PyVal.str "X"])]
      (PyVal.str "X") [] rfl⟩

/-- C8: for any classifier argmax index `idx`, the predicted label is the
vocabulary entry at `idx` when `idx` is in bounds and the decimal string
representation of `idx` otherwise; the out-of-bounds case is total, never
a fault. -/
theorem predict_label_spec (labels : List String) (idx : Nat) :
    (∀ h : idx < labels.length, predict_label labels idx = labels.get ⟨idx, h⟩) ∧
    (labels.length ≤ idx → predict_label labels idx = toString idx) := by
  constructor
  · intro h
    simp [predict_label, h]
  · intro h
    simp [predict_label, Nat.not_lt.mpr h]

/-- Witness for C8: in bounds at index 1 of `["A", "B"]`, out of bounds at
index 5. -/
theorem predict_label_spec_witness :
    predict_label ["A", "B"] 1 = "B" ∧ predict_label ["A", "B"] 5 = "5" :=
  ⟨(predict_label_spec ["A", "B"] 1).1 (by decide),
    (predict_label_spec ["A", "B"] 5).2 (by decide)⟩

/-- C9 counterexample: when both model files are missing, the fatal
message of `load_model` names only the primary path — the fallback path
`model_v2.h5` does not occur in it. -/
theorem load_model_error_counterexample :
    load_model (fun _ => false) "model.keras" =
      Except.error "Model not found: model.keras. Train first or provide --model path." ∧
    strContains "Model not found: model.keras. Train first or provide --model path."
      "model_v2.h5" = false :=
  ⟨rfl, by decide⟩

/-- C9 (amended): `load_model` loads the primary path when it exists,
otherwise loads the legacy fallback `model_v2.h5` when that exists, and
otherwise fails with a fatal error whose message names the primary path
(only). -/
theorem load_model_spec (exists_file : String → Bool) (model_path : String) :
    (exists_file model_path = true →
      load_model exists_file model_path = Except.ok model_path) ∧
    (exists_file model_path = false → exists_file "model_v2.h5" = true →
      load_model exists_file model_path = Except.ok "model_v2.h5") ∧
    (exists_file model_path = false → exists_file "model_v2.h5" = false →
      load_model exists_file model_path = Except.error
        ("Model not found: " ++ model_path ++ ". Train first or provide --model path.")) := by
  refine ⟨?_, ?_, ?_⟩
  · intro h
    simp [load_model, h]
  · intro h1 h2
    simp [load_model, h1, h2]
  · intro h1 h2
    simp [load_model, h1, h2]

/-- Witness for C9 (amended): each of the three resolution outcomes at
concrete file systems. -/
theorem load_model_spec_witness :
    load_model (fun p => p == "model.keras") "model.keras" = Except.ok "model.keras" ∧
    load_model (fun p => p == "model_v2.h5") "model.keras" = Except.ok "model_v2.h5" ∧
    load_model (fun _ => false) "model.keras" = Except.error
      "Model not found: model.keras. Train first or provide --model path." :=
  ⟨(load_model_spec (fun p => p == "model.keras") "model.keras").1 (by decide),
    (load_model_spec (fun p => p == "model_v2.h5") "model.keras").2.1
      (by decide) (by decide),
    (load_model_spec (fun _ => false) "model.keras").2.2 rfl rfl⟩

/-- `preprocess_landmarks` on a non-empty list is `normFromRel` of the
base-point-relative coordinates. -/
theorem preprocess_cons (x0 y0 : ℚ) (rest : List (ℚ × ℚ)) :
    preprocess_landmarks ((x0, y0) :: rest) =
      some (normFromRel (((x0, y0) :: rest).map (fun p => (p.1 - x0, p.2 - y0)))) :=
  rfl

/-- The seed of a `max`-fold is a lower bound of the fold. -/
theorem init_le_foldl_max (l : List ℚ) (a : ℚ) : a ≤ l.foldl max a := by
  induction l generalizing a with
  | nil => exact le_refl a
  | cons b t ih => exact le_trans (le_max_left a b) (ih (max a b))

/-- Every member of the list is a lower bound of a `max`-fold over it. -/
theorem mem_le_foldl_max (l : List ℚ) (a x : ℚ) (hx : x ∈ l) : x ≤ l.foldl max a := by
  induction l generalizing a with
  | nil => cases hx
  | cons b t ih =>
    rcases List.mem_cons.mp hx with h | h
    · subst h
      exact le_trans (le_max_right a x) (init_le_foldl_max t _)
    · exact ih _ h

/-- A `max`-fold commutes with multiplication by a non-negative scalar. -/
theorem foldl_max_map_mul (k : ℚ) (hk : 0 ≤ k) (l : List ℚ) (a : ℚ) :
    (l.map (fun v => k * v)).foldl max (k * a) = k * l.foldl max a := by
  induction l generalizing a with
  | nil => rfl
  | cons b t ih =>
    simp only [List.map_cons, List.foldl_cons]
    rw [← mul_max_of_nonneg _ _ hk]
    exact ih (max a b)

/-- C3: the normalizer is translation invariant — shifting every landmark
by the same `(dx, dy)` leaves `preprocess_landmarks` unchanged on any
non-empty landmark list. -/
theorem preprocess_translation_invariant (L : List (ℚ × ℚ)) (dx dy : ℚ) (h : L ≠ []) :
    preprocess_landmarks (L.map (fun p => (p.1 + dx, p.2 + dy))) =
      preprocess_landmarks L := by
  match L with
  | [] => exact absurd rfl h
  | (x0, y0) :: rest =>
    simp only [List.map_cons]
    rw [preprocess_cons, preprocess_cons]
    congr 2
    simp only [List.map_cons, List.map_map]
    congr 1
    · norm_num
    · exact List.map_congr_left fun p _ => by
        simp only [Function.comp_apply, Prod.mk.injEq]
        constructor <;> ring

/-- Witness for C3: shifting the landmark list `[(1, 2), (3, 4)]` by
`(5, 7)` gives the same feature vector. -/
theorem preprocess_translation_invariant_witness :
    preprocess_landmarks ([((1:ℚ), (2:ℚ)), (3, 4)].map (fun p => (p.1 + 5, p.2 + 7))) =
      preprocess_landmarks [((1:ℚ), (2:ℚ)), (3, 4)] :=
  preprocess_translation_invariant [((1:ℚ), (2:ℚ)), (3, 4)] 5 7 (by simp)

/-- Flattening commutes with scaling every coordinate by `k`. -/
theorem flatMap_pairs_map_scale (k : ℚ) (rel : List (ℚ × ℚ)) :
    (rel.map (fun p => (k * p.1, k * p.2))).flatMap (fun p => [p.1, p.2]) =
      (rel.flatMap (fun p => [p.1, p.2])).map (fun v => k * v) := by
  rw [List.flatMap_map, List.map_flatMap]
  simp

/-- If the maximum absolute component of `f :: fs` is zero, every element
is zero. -/
theorem all_zero_of_max_abs_zero (f : ℚ) (fs : List ℚ)
    (h : (fs.map (fun v => |v|)).foldl max |f| = 0) :
    ∀ v ∈ f :: fs, v = 0 := by
  intro v hv
  have hle : |v| ≤ (fs.map (fun v => |v|)).foldl max |f| := by
    rcases List.mem_cons.mp hv with h' | h'
    · subst h'
      exact init_le_foldl_max _ _
    · exact mem_le_foldl_max _ _ _ (List.mem_map_of_mem _ h')
  rw [h] at hle
  exact abs_eq_zero.mp (le_antisymm hle (abs_nonneg v))

/-- `normFromRel` is invariant under scaling the relative coordinates by
a positive scalar. -/
theorem normFromRel_scale (k : ℚ) (hk : 0 < k) (rel : List (ℚ × ℚ)) :
    normFromRel (rel.map (fun p => (k * p.1, k * p.2))) = normFromRel rel := by
  simp only [normFromRel]
  rw [flatMap_pairs_map_scale]
  cases hfl : rel.flatMap (fun p => [p.1, p.2]) with
  | nil => simp
  | cons f fs =>
    simp only [List.map_cons]
    have habs : (fs.map (fun v => k * v)).map (fun v => |v|) =
        (fs.map (fun v => |v|)).map (fun v => k * v) := by
      simp only [List.map_map]
      exact List.map_congr_left fun v _ => by
        simp [Function.comp, abs_mul, abs_of_pos hk]
    have hkf : |k * f| = k * |f| := by rw [abs_mul, abs_of_pos hk]
    rw [habs, hkf, foldl_max_map_mul k (le_of_lt hk)]
    by_cases hmv : (fs.map (fun v => |v|)).foldl max |f| = 0
    · simp only [hmv, mul_zero, ne_eq, not_true_eq_false, if_false]
      have hz := all_zero_of_max_abs_zero f fs hmv
      calc (f :: fs).map (fun v => k * v)
          = (f :: fs).map id :=
            List.map_congr_left fun v hv => by rw [hz v hv]; simp
        _ = f :: fs := List.map_id _
    · have hkmv : k * ((fs.map (fun v => |v|)).foldl max |f|) ≠ 0 :=
        mul_ne_zero (ne_of_gt hk) hmv
      rw [if_pos hkmv, if_pos hmv, List.map_map]
      congr 1
      · exact mul_div_mul_left f _ (ne_of_gt hk)
      · exact List.map_congr_left fun v _ => by
          simp only [Function.comp_apply]
          exact mul_div_mul_left v _ (ne_of_gt hk)

/-- C4: the normalizer is invariant under uniform positive scaling —
multiplying every coordinate of a non-empty landmark list by `k > 0`
leaves `preprocess_landmarks` unchanged (exactly, over exact rational
arithmetic). -/
theorem preprocess_scale_invariant (L : List (ℚ × ℚ)) (k : ℚ) (h : L ≠ [])
    (hk : 0 < k) :
    preprocess_landmarks (L.map (fun p => (k * p.1, k * p.2))) =
      preprocess_landmarks L := by
  match L with
  | [] => exact absurd rfl h
  | (x0, y0) :: rest =>
    simp only [List.map_cons]
    rw [preprocess_cons, preprocess_cons]
    congr 1
    have hrel : ((k * x0, k * y0) :: rest.map (fun p => (k * p.1, k * p.2))).map
        (fun p => (p.1 - k * x0, p.2 - k * y0)) =
        (((x0, y0) :: rest).map (fun p => (p.1 - x0, p.2 - y0))).map
          (fun p => (k * p.1, k * p.2)) := by
      simp only [List.map_cons, List.map_map]
      congr 1
      · simp only [Prod.mk.injEq]
        constructor <;> ring
      · exact List.map_congr_left fun p _ => by
          simp only [Function.comp_apply, Prod.mk.injEq]
          constructor <;> ring
    rw [hrel, normFromRel_scale k hk]

/-- Witness for C4: scaling the landmark list `[(1, 2), (3, 4)]` by `2`
gives the same feature vector. -/
theorem preprocess_scale_invariant_witness :
    preprocess_landmarks ([((1:ℚ), (2:ℚ)), (3, 4)].map (fun p => (2 * p.1, 2 * p.2))) =
      preprocess_landmarks [((1:ℚ), (2:ℚ)), (3, 4)] :=
  preprocess_scale_invariant [((1:ℚ), (2:ℚ)), (3, 4)] 2 (by simp) (by norm_num)

/-- Flattening `n` copies of the origin gives `2n` zeros. -/
theorem flatMap_replicate_zero (n : ℕ) :
    (List.replicate n ((0:ℚ), (0:ℚ))).flatMap (fun p => [p.1, p.2]) =
      List.replicate (2 * n) (0:ℚ) := by
  induction n with
  | zero => rfl
  | succ m ih =>
    rw [List.replicate_succ, List.flatMap_cons, ih,
      show 2 * (m + 1) = 2 + 2 * m from by ring, List.replicate_add]
    rfl

/-- A `max`-fold over zeros seeded with zero is zero. -/
theorem foldl_max_replicate_zero (n : ℕ) :
    (List.replicate n (0:ℚ)).foldl max 0 = 0 := by
  induction n with
  | zero => rfl
  | succ m ih => simpa [List.replicate_succ] using ih

/-- `normFromRel` of `n` copies of the origin is the all-zero vector of
length `2n`: the maximum absolute component is zero, so the division is
skipped and the flattened zeros are returned unchanged. -/
theorem normFromRel_replicate_zero (n : ℕ) :
    normFromRel (List.replicate n ((0:ℚ), (0:ℚ))) = List.replicate (2 * n) 0 := by
  cases n with
  | zero => rfl
  | succ m =>
    simp only [normFromRel]
    rw [flatMap_replicate_zero, show 2 * (m + 1) = 2 * m + 1 + 1 from by ring,
      List.replicate_succ, List.replicate_succ]
    simp only [List.map_cons, List.map_replicate, abs_zero, List.foldl_cons, max_self]
    rw [foldl_max_replicate_zero]
    simp

/-- C5: on a non-empty landmark list whose points are all identical (in
particular any single-point list), `preprocess_landmarks` returns the
all-zero vector of length `2N`; the division by the maximum absolute
component is guarded and skipped because that maximum is zero, so no
division-by-zero fault occurs. -/
theorem preprocess_degenerate (L : List (ℚ × ℚ)) (q : ℚ × ℚ) (hne : L ≠ [])
    (hall : ∀ p ∈ L, p = q) :
    preprocess_landmarks L = some (List.replicate (2 * L.length) 0) := by
  match L with
  | [] => exact absurd rfl hne
  | (x0, y0) :: rest =>
    have hq : (x0, y0) = q := hall _ (List.mem_cons_self _ _)
    have hrel : ((x0, y0) :: rest).map (fun p => (p.1 - x0, p.2 - y0)) =
        List.replicate ((x0, y0) :: rest).length ((0:ℚ), (0:ℚ)) := by
      refine List.eq_replicate_iff.mpr ⟨by simp, ?_⟩
      intro b hb
      rcases List.mem_map.mp hb with ⟨p, hp, rfl⟩
      rw [hall p hp, ← hq]
      simp
    rw [preprocess_cons, hrel, normFromRel_replicate_zero]

/-- Witness for C5: the single-point list `[(3, 4)]` yields `[0, 0]`. -/
theorem preprocess_degenerate_witness :
    preprocess_landmarks [((3:ℚ), (4:ℚ))] = some [0, 0] :=
  (preprocess_degenerate [((3:ℚ), (4:ℚ))] (3, 4) (by simp)
    (fun p hp => by simpa using hp)).trans (by simp [List.replicate])

/-- Flattening a list of pairs doubles its length. -/
theorem flatMap_pairs_length (l : List (ℚ × ℚ)) :
    (l.flatMap (fun p => [p.1, p.2])).length = 2 * l.length := by
  induction l with
  | nil => rfl
  | cons p t ih =>
    rw [List.flatMap_cons, List.length_append, ih, List.length_cons]
    simp
    ring

/-- C6: on the non-empty landmark list `(x0, y0) :: rest` with `N` points,
`preprocess_landmarks` returns `2N` numbers, ordered x-then-y per point
(the output is the flattening of the base-relative points all divided by
one common scalar), its first two components are `0`, and whenever some
point differs from point 0 the maximum absolute output component is
exactly `1`. -/
theorem preprocess_shape (x0 y0 : ℚ) (rest : List (ℚ × ℚ)) (out : List ℚ)
    (hout : preprocess_landmarks ((x0, y0) :: rest) = some out) :
    out.length = 2 * ((x0, y0) :: rest).length ∧
    out.take 2 = [0, 0] ∧
    (∃ m : ℚ, out = ((x0, y0) :: rest).flatMap
      (fun p => [(p.1 - x0) / m, (p.2 - y0) / m])) ∧
    ((∃ q ∈ (x0, y0) :: rest, q ≠ (x0, y0)) →
      (out.map (fun v => |v|)).foldl max 0 = 1) := by
  rw [preprocess_cons] at hout
  obtain rfl := Option.some.inj hout
  have hflat : (((x0, y0) :: rest).map (fun p => (p.1 - x0, p.2 - y0))).flatMap
      (fun p => [p.1, p.2]) =
      0 :: 0 :: (rest.map (fun p => (p.1 - x0, p.2 - y0))).flatMap
        (fun p => [p.1, p.2]) := by
    simp [List.map_cons, List.flatMap_cons]
  set t := (rest.map (fun p => (p.1 - x0, p.2 - y0))).flatMap (fun p => [p.1, p.2])
    with ht
  have htlen : t.length = 2 * rest.length := by
    rw [ht, flatMap_pairs_length, List.length_map]
  set mv := (t.map (fun v => |v|)).foldl max 0 with hmv_def
  have hnorm : normFromRel (((x0, y0) :: rest).map (fun p => (p.1 - x0, p.2 - y0))) =
      if mv ≠ 0 then (0 :: 0 :: t).map (fun v => v / mv) else 0 :: 0 :: t := by
    simp only [normFromRel]
    rw [hflat]
    simp only [List.map_cons, abs_zero, List.foldl_cons, max_self]
  have hflat_eq : ∀ m : ℚ, ((x0, y0) :: rest).flatMap
      (fun p => [(p.1 - x0) / m, (p.2 - y0) / m]) =
      (0 :: 0 :: t).map (fun v => v / m) := by
    intro m
    have h1 : (((x0, y0) :: rest).map (fun p => (p.1 - x0, p.2 - y0))).flatMap
        (fun p => [p.1 / m, p.2 / m]) =
        ((x0, y0) :: rest).flatMap (fun p => [(p.1 - x0) / m, (p.2 - y0) / m]) := by
      rw [List.flatMap_map]
    have h2 : (((x0, y0) :: rest).map (fun p => (p.1 - x0, p.2 - y0))).flatMap
        (fun p => [p.1 / m, p.2 / m]) =
        ((((x0, y0) :: rest).map (fun p => (p.1 - x0, p.2 - y0))).flatMap
          (fun p => [p.1, p.2])).map (fun v => v / m) := by
      rw [List.map_flatMap]
      simp
    rw [← h1, h2, hflat]
  rw [hnorm]
  by_cases hmv : mv = 0
  · simp only [hmv, ne_eq, not_true_eq_false, if_false]
    refine ⟨?_, rfl, ⟨1, ?_⟩, ?_⟩
    · simp [htlen, List.length_cons]
      ring
    · rw [hflat_eq 1]
      simp
    · rintro ⟨q, hqL, hqne⟩
      exfalso
      have hq' : q ∈ rest := by
        rcases List.mem_cons.mp hqL with h | h
        · exact absurd h hqne
        · exact h
      have hmem : (q.1 - x0, q.2 - y0) ∈
          rest.map (fun p => (p.1 - x0, p.2 - y0)) :=
        List.mem_map_of_mem _ hq'
      have hcoord : q.1 - x0 ≠ 0 ∨ q.2 - y0 ≠ 0 := by
        by_contra hc
        push_neg at hc
        exact hqne (Prod.ext_iff.mpr ⟨sub_eq_zero.mp hc.1, sub_eq_zero.mp hc.2⟩)
      have hvt : ∃ v ∈ t, v ≠ 0 := by
        rcases hcoord with hv | hv
        · exact ⟨q.1 - x0, List.mem_flatMap.mpr ⟨_, hmem, by simp⟩, hv⟩
        · exact ⟨q.2 - y0, List.mem_flatMap.mpr ⟨_, hmem, by simp⟩, hv⟩
      obtain ⟨v, hvmem, hvne⟩ := hvt
      have hle : |v| ≤ mv :=
        mem_le_foldl_max _ _ _ (List.mem_map_of_mem _ hvmem)
      rw [hmv] at hle
      exact hvne (abs_eq_zero.mp (le_antisymm hle (abs_nonneg v)))
  · simp only [hmv, ne_eq, not_false_eq_true, if_true]
    have hmvnn : 0 ≤ mv := le_trans (le_refl 0) (by
      have := init_le_foldl_max (t.map (fun v => |v|)) 0
      exact this)
    have hmvpos : 0 < mv := lt_of_le_of_ne hmvnn (Ne.symm hmv)
    refine ⟨?_, ?_, ⟨mv, (hflat_eq mv).symm ▸ rfl⟩, ?_⟩
    · simp [htlen, List.length_cons]
      ring
    · simp [zero_div]
    · intro _
      have habs : ((0 :: 0 :: t).map (fun v => v / mv)).map (fun v => |v|) =
          (0 :: 0 :: t.map (fun v => |v|)).map (fun v => mv⁻¹ * v) := by
        simp only [List.map_cons, List.map_map]
        congr 1
        · simp
        congr 1
        · simp
        · exact List.map_congr_left fun v _ => by
            simp only [Function.comp_apply]
            rw [abs_div, abs_of_pos hmvpos, div_eq_inv_mul]
      rw [habs]
      have hfold := foldl_max_map_mul mv⁻¹ (inv_nonneg.mpr hmvnn)
        (0 :: 0 :: t.map (fun v => |v|)) 0
      rw [mul_zero] at hfold
      rw [hfold]
      have : (0 :: 0 :: t.map (fun v => |v|)).foldl max 0 = mv := by
        simp only [List.foldl_cons, max_self]
      rw [this]
      exact inv_mul_cancel₀ hmv

/-- Witness for C6: on `[(0, 0), (2, 0)]` (non-degenerate) the output is
`[0, 0, 1, 0]`: four components, first two zero, maximum absolute
component one. -/
theorem preprocess_shape_witness :
    (∃ q ∈ [((0:ℚ), (0:ℚ)), (2, 0)], q ≠ ((0:ℚ), (0:ℚ))) ∧
    [(0:ℚ), 0, 1, 0].length = 2 * [((0:ℚ), (0:ℚ)), (2, 0)].length ∧
    [(0:ℚ), 0, 1, 0].take 2 = [0, 0] ∧
    ([(0:ℚ), 0, 1, 0].map (fun v => |v|)).foldl max 0 = 1 := by
  have hout : preprocess_landmarks [((0:ℚ), (0:ℚ)), (2, 0)] = some [0, 0, 1, 0] := by
    norm_num [preprocess_landmarks]
  have hnd : ∃ q ∈ [((0:ℚ), (0:ℚ)), (2, 0)], q ≠ ((0:ℚ), (0:ℚ)) :=
    ⟨(2, 0), by simp, by simp [Prod.ext_iff]⟩
  obtain ⟨h1, h2, _, h4⟩ := preprocess_shape 0 0 [((2:ℚ), (0:ℚ))] [0, 0, 1, 0] hout
  exact ⟨hnd, h1, h2, h4 hnd⟩

end Detect
